import Mathlib

/-!
Verification of the XSD-extraction core of the wixcraft repository.

The development shallowly embeds the two XSD scrapers:
  * `src/core/wix-data/scripts/update-from-xsd.py` (class `XsdParser`,
    `merge_element`, the merge/write decision of `main`), and
  * `scripts/extract-xsd.py` (`parse_element`, `parse_type_name`).

XML documents are modelled as a tree of nodes (tag, attribute list, optional
text, children); Python dicts become association lists with dict semantics
(insertion appends new keys at the end, assignment to an existing key updates
in place), and Python truthiness of strings is the explicit test against `""`.
-/

/-- An XML element node as exposed by `xml.etree.ElementTree`: a tag, its XML
attributes, its text content (`None` or a string), and its child nodes.
Namespace-qualified XSD tags such as `{…XMLSchema}complexType` are modelled by
the local tag name (the scripts only ever match on fully qualified XSD tags,
so the namespace prefix is constant and carries no information). -/
inductive XNode where
  | mk (tag : String) (xattrs : List (String × String)) (text : Option String) (kids : List XNode)

/-- The node's tag. -/
def XNode.tag : XNode → String
  | .mk t _ _ _ => t

/-- The node's XML attribute list. -/
def XNode.xattrs : XNode → List (String × String)
  | .mk _ a _ _ => a

/-- The node's text content (`elem.text`). -/
def XNode.text : XNode → Option String
  | .mk _ _ t _ => t

/-- The node's direct children. -/
def XNode.kids : XNode → List XNode
  | .mk _ _ _ k => k

/-- `elem.get(a)`: the value of XML attribute `a`, if present. -/
def XNode.get (n : XNode) (a : String) : Option String :=
  n.xattrs.lookup a

/-- All proper descendants of a node, in document order. -/
def XNode.descendants : XNode → List XNode
  | .mk _ _ _ kids => go kids
where go : List XNode → List XNode
  | [] => []
  | n :: rest => n :: n.descendants ++ go rest

mutual

/-- Structural decidable equality for XML nodes (needed so that concrete
membership facts about node lists can be checked by evaluation). -/
def XNode.deq : (a b : XNode) → Decidable (a = b)
  | .mk t1 a1 x1 k1, .mk t2 a2 x2 k2 =>
      match decEq t1 t2 with
      | isFalse h => isFalse (fun hc => by cases hc; exact h rfl)
      | isTrue h1 =>
        match decEq a1 a2 with
        | isFalse h => isFalse (fun hc => by cases hc; exact h rfl)
        | isTrue h2 =>
          match decEq x1 x2 with
          | isFalse h => isFalse (fun hc => by cases hc; exact h rfl)
          | isTrue h3 =>
            match XNode.deqList k1 k2 with
            | isFalse h => isFalse (fun hc => by cases hc; exact h rfl)
            | isTrue h4 => isTrue (by rw [h1, h2, h3, h4])

def XNode.deqList : (a b : List XNode) → Decidable (a = b)
  | [], [] => isTrue rfl
  | [], _ :: _ => isFalse (fun h => by cases h)
  | _ :: _, [] => isFalse (fun h => by cases h)
  | a :: as, b :: bs =>
      match XNode.deq a b with
      | isFalse h => isFalse (fun hc => by cases hc; exact h rfl)
      | isTrue h1 =>
        match XNode.deqList as bs with
        | isFalse h => isFalse (fun hc => by cases hc; exact h rfl)
        | isTrue h2 => isTrue (by rw [h1, h2])

end

instance : DecidableEq XNode := XNode.deq

/-- The nodes of a list carrying a given tag, in order (helper for the
`findall` patterns used by the scripts). -/
def tagged (t : String) (ns : List XNode) : List XNode :=
  ns.filter (fun n => n.tag = t)

/-- `node.findall(f".//{tag}")`: all descendants with the given tag. -/
def findallDesc (n : XNode) (t : String) : List XNode :=
  tagged t n.descendants

/-- `node.findall(f"./{tag}")`: all direct children with the given tag. -/
def findallChild (n : XNode) (t : String) : List XNode :=
  tagged t n.kids

/-- `node.find(f"./{tag}")`: the first direct child with the given tag. -/
def findChild (n : XNode) (t : String) : Option XNode :=
  (findallChild n t).head?

/-- `node.find(f".//{tag}")`: the first descendant with the given tag. -/
def findDesc (n : XNode) (t : String) : Option XNode :=
  (findallDesc n t).head?

/-- `node.findall(f".//{c}/{t}")`: the `t`-tagged children of every
`c`-tagged descendant. -/
def findallDescChild (n : XNode) (c t : String) : List XNode :=
  (findallDesc n c).foldl (fun acc sq => acc ++ tagged t sq.kids) []

/-- Python dict assignment `d[k] = v` on an association list: update the
first binding of `k` in place, or append a new binding at the end. -/
def dictInsert {α : Type} : List (String × α) → String → α → List (String × α)
  | [], k, v => [(k, v)]
  | (k', v') :: rest, k, v =>
      if k' = k then (k, v) :: rest else (k', v') :: dictInsert rest k v

/-- Lexicographic comparison of character lists by code point; this is how
Python compares strings, and it drives the model of `sorted(...)`. -/
def lexLeB : List Char → List Char → Bool
  | [], _ => true
  | _ :: _, [] => false
  | a :: as, b :: bs =>
      if a.toNat < b.toNat then true
      else if a.toNat = b.toNat then lexLeB as bs
      else false

/-- `a ≤ b` on strings by code point, as Python orders strings. -/
def strLe (a b : String) : Prop :=
  lexLeB a.data b.data = true

instance : DecidableRel strLe := fun a b => by
  unfold strLe; infer_instance

theorem lexLeB_total (a b : List Char) : lexLeB a b = true ∨ lexLeB b a = true := by
  induction a generalizing b with
  | nil => left; rfl
  | cons x xs ih =>
    cases b with
    | nil => right; rfl
    | cons y ys =>
      rcases Nat.lt_trichotomy x.toNat y.toNat with h | h | h
      · left; simp [lexLeB, h]
      · rcases ih ys with h' | h'
        · left; simp [lexLeB, h, Nat.lt_irrefl, h']
        · right; simp [lexLeB, h.symm, Nat.lt_irrefl, h']
      · right; simp [lexLeB, h]

theorem lexLeB_trans {a b c : List Char} (h1 : lexLeB a b = true)
    (h2 : lexLeB b c = true) : lexLeB a c = true := by
  induction a generalizing b c with
  | nil => rfl
  | cons x xs ih =>
    cases b with
    | nil => simp [lexLeB] at h1
    | cons y ys =>
      cases c with
      | nil => simp [lexLeB] at h2
      | cons z zs =>
        simp only [lexLeB] at h1 h2 ⊢
        by_cases hxy : x.toNat < y.toNat
        · by_cases hyz : y.toNat < z.toNat
          · simp [Nat.lt_trans hxy hyz]
          · simp [hxy] at h1
            by_cases hyz' : y.toNat = z.toNat
            · simp [hyz' ▸ hxy]
            · simp [hyz, hyz'] at h2
        · by_cases hxy' : x.toNat = y.toNat
          · simp [hxy, hxy'] at h1
            by_cases hyz : y.toNat < z.toNat
            · simp [hxy' ▸ hyz]
            · by_cases hyz' : y.toNat = z.toNat
              · have := ih h1 (by simpa [hyz, hyz'] using h2)
                simp [hxy' ▸ hyz, hxy'.trans hyz', this]
              · simp [hyz, hyz'] at h2
          · simp [hxy, hxy'] at h1

instance : IsTotal String strLe :=
  ⟨fun a b => lexLeB_total a.data b.data⟩

instance : IsTrans String strLe :=
  ⟨fun _ _ _ h1 h2 => lexLeB_trans h1 h2⟩

/-- `sorted(set(a) | set(b))` in Python: deduplicated union of two string
lists, sorted by code point. -/
def sortedUnion (a b : List String) : List String :=
  List.insertionSort strLe (a ++ b).dedup

theorem mem_sortedUnion {x : String} {a b : List String} :
    x ∈ sortedUnion a b ↔ x ∈ a ∨ x ∈ b := by
  unfold sortedUnion
  rw [(List.perm_insertionSort strLe _).mem_iff, List.mem_dedup, List.mem_append]

theorem sortedUnion_nodup (a b : List String) : (sortedUnion a b).Nodup :=
  (List.perm_insertionSort strLe _).nodup_iff.mpr (List.nodup_dedup _)

theorem sortedUnion_sorted (a b : List String) :
    List.Sorted strLe (sortedUnion a b) :=
  List.sorted_insertionSort strLe _

/-- Python truthiness fallback `doc or placeholder` on an optional string:
`None` and the empty string both fall through to the placeholder. -/
def pyOr (o : Option String) (d : String) : String :=
  match o with
  | some t => if t = "" then d else t
  | none => d

/-- Python truthiness fallback `a or b` on two optional strings
(`child_ref.get("ref") or child_ref.get("name")`). -/
def pyOrOpt (a b : Option String) : Option String :=
  match a with
  | some s => if s = "" then b else some s
  | none => b

/-- `" ".join(text.split())`: collapse every whitespace run to a single
space and strip the ends. -/
def normWs (s : String) : String :=
  String.intercalate " " ((s.split Char.isWhitespace).filter (fun t => t ≠ ""))

/-- `name.lower()`: ASCII lower-casing of an element name (the model of
`str.lower()` for the schema's ASCII element names), written over the
character list so that it evaluates by kernel reduction. -/
def pyLower (s : String) : String :=
  String.mk (s.data.map Char.toLower)

/-- One attribute of an element, as the scripts emit it: the JSON object
with keys `type`, `required`, `description` and optional `default` /
`values` (absent keys are `none`). -/
structure AttrDef where
  type : String
  required : Bool
  description : String
  default : Option String
  values : Option (List String)
deriving DecidableEq, Repr

/-- One element descriptor, the JSON object the scripts write: `namespace`
is rendered here as `nspace` (`namespace` is a Lean keyword). The
`attributes` dict is an association list in insertion order. -/
structure ElementDescriptor where
  name : String
  nspace : String
  since : String
  description : String
  documentation : String
  parents : List String
  children : List String
  attributes : List (String × AttrDef)
deriving DecidableEq, Repr

/-- A value of `XsdParser.types`: either the dict produced by
`_parse_complex_type` (keys `attributes`, `children`) or the dict produced
by `_parse_simple_type` (keys `type` and, for enums, `values`). -/
inductive TypeInfo where
  | complex (attributes : List (String × AttrDef)) (children : List String)
  | simple (type : String) (values : List String)
deriving DecidableEq, Repr

/-- `type_info.get("attributes", {})`. -/
def TypeInfo.getAttributes : TypeInfo → List (String × AttrDef)
  | .complex a _ => a
  | .simple _ _ => []

/-- `type_info.get("children", [])`. -/
def TypeInfo.getChildren : TypeInfo → List String
  | .complex _ c => c
  | .simple _ _ => []

/-- `type_info.get("type") == "enum"` (a complex-type dict has no `type`
key, so the comparison is false there). -/
def TypeInfo.isEnum : TypeInfo → Bool
  | .complex _ _ => false
  | .simple t _ => t = "enum"

/-- `type_info.get("values", [])`. -/
def TypeInfo.getValues : TypeInfo → List String
  | .complex _ _ => []
  | .simple _ v => v

/-- The mutable state of `XsdParser`: `elements`, `types`, `groups`. -/
structure ParserState where
  elements : List (String × ElementDescriptor)
  types : List (String × TypeInfo)
  groups : List (String × List String)
deriving DecidableEq, Repr

/-- A fresh `XsdParser()` (all three dicts empty). -/
def ParserState.empty : ParserState := ⟨[], [], []⟩

/-- `XsdParser._get_documentation`: text of the first
`xs:documentation` descendant with whitespace collapsed; `None` when the
node is absent or its text is `None`/empty. -/
def get_documentation (elem : XNode) : Option String :=
  match findDesc elem "documentation" with
  | some d =>
      match d.text with
      | some t => if t = "" then none else some (normWs t)
      | none => none
  | none => none

/-- The `type_mapping` table of `XsdParser._parse_attribute`. -/
def typeMapping : List (String × String) :=
  [("xs:string", "string"), ("xs:boolean", "yesno"), ("xs:integer", "integer"),
   ("xs:int", "integer"), ("xs:positiveInteger", "integer"),
   ("xs:nonNegativeInteger", "integer"), ("YesNoType", "yesno"),
   ("Guid", "guid"), ("VersionType", "version")]

/-- `XsdParser._parse_attribute`: `none` when the node has no (or an
empty) `name`; otherwise the attribute name and its definition dict. -/
def parse_attribute (types : List (String × TypeInfo)) (attr : XNode) :
    Option (String × AttrDef) :=
  match attr.get "name" with
  | none => none
  | some name =>
    if name = "" then none
    else
      let doc := get_documentation attr
      let attr_type := (attr.get "type").getD "string"
      let use := (attr.get "use").getD "optional"
      let dflt := attr.get "default"
      let mapped0 := (typeMapping.lookup attr_type).getD "string"
      let mapped := match types.lookup attr_type with
        | some ti => if ti.isEnum then "enum" else mapped0
        | none => mapped0
      some (name,
        { type := mapped
          required := use == "required"
          description := pyOr doc ("The " ++ name ++ " attribute.")
          default := match dflt with
            | some d => if d = "" then none else some d
            | none => none
          values := match types.lookup attr_type with
            | some ti => if mapped = "enum" then some ti.getValues else none
            | none => none })

/-- An `xs:element` node's `ref` attribute under the truthy test
`if ref:`. -/
def refAttr (e : XNode) : Option String :=
  match e.get "ref" with
  | some r => if r = "" then none else some r
  | none => none

/-- The direct-reference part of `_parse_complex_type`'s `children`: for
each container tag `sequence`, `choice`, `all`, the `ref`s of the
`xs:element` children of every such container descendant. -/
def directChildren (t : XNode) : List String :=
  ["sequence", "choice", "all"].foldl
    (fun acc c => acc ++ (findallDescChild t c "element").filterMap refAttr) []

/-- One `xs:group` descendant's contribution to `_parse_complex_type`'s
`children`: a truthy `ref` known in `groups` appends that group's child
list; an unknown group contributes nothing. -/
def groupStep (groups : List (String × List String)) (acc : List String)
    (g : XNode) : List String :=
  match g.get "ref" with
  | some r =>
      if r = "" then acc
      else match groups.lookup r with
        | some gs => acc ++ gs
        | none => acc
  | none => acc

/-- The group-reference part of `_parse_complex_type`'s `children`. -/
def groupChildren (groups : List (String × List String)) (t : XNode) :
    List String :=
  (findallDesc t "group").foldl (groupStep groups) []

/-- `XsdParser._parse_complex_type`: attributes from every `xs:attribute`
descendant (dict-keyed by name), children from the containers plus one
level of group expansion. -/
def parse_complex_type (types : List (String × TypeInfo))
    (groups : List (String × List String)) (t : XNode) : TypeInfo :=
  TypeInfo.complex
    ((findallDesc t "attribute").foldl
      (fun acc a =>
        match parse_attribute types a with
        | some (n, d) => dictInsert acc n d
        | none => acc) [])
    (directChildren t ++ groupChildren groups t)

/-- `XsdParser._parse_simple_type`: `{"type": "string"}`, upgraded to an
enum when any `xs:enumeration` descendant has a truthy `value`. -/
def parse_simple_type (t : XNode) : TypeInfo :=
  let vals := (findallDesc t "enumeration").filterMap (fun e =>
    match e.get "value" with
    | some v => if v = "" then none else some v
    | none => none)
  if vals = [] then TypeInfo.simple "string" [] else TypeInfo.simple "enum" vals

/-- `XsdParser._parse_group`: the truthy `ref`s of every `xs:element`
descendant of the group node. -/
def parse_group (g : XNode) : List String :=
  (findallDesc g "element").filterMap refAttr

/-- The branch test `if type_name and type_name in self.types:` of
`XsdParser._parse_element`. -/
def usesNamedType (types : List (String × TypeInfo)) (elem : XNode) : Bool :=
  match elem.get "type" with
  | some t => t ≠ "" && (types.lookup t).isSome
  | none => false

/-- `XsdParser._parse_element`: `none` for a nameless element; otherwise
the descriptor, taking attributes/children from the named type when it is
known, else from an inline `complexType` child, else empty. `parents` is
left empty for the relationship resolver. -/
def parse_element (st : ParserState) (elem : XNode) (nspace : String) :
    Option ElementDescriptor :=
  match elem.get "name" with
  | none => none
  | some name =>
    if name = "" then none
    else
      let doc := get_documentation elem
      let ac : List (String × AttrDef) × List String :=
        if usesNamedType st.types elem then
          match st.types.lookup ((elem.get "type").getD "") with
          | some ti => (ti.getAttributes, ti.getChildren)
          | none => ([], [])
        else
          match findChild elem "complexType" with
          | some ct =>
              let ti := parse_complex_type st.types st.groups ct
              (ti.getAttributes, ti.getChildren)
          | none => ([], [])
      some { name := name, nspace := nspace, since := "v4",
             description := pyOr doc ("The " ++ name ++ " element."),
             documentation :=
               "https://wixtoolset.org/docs/schema/wxs/" ++ pyLower name ++ "/",
             parents := [], children := ac.2, attributes := ac.1 }

/-- The first pass of `XsdParser.parse_file`: collect named complex types,
then named simple types, then named groups, threading the mutable parser
state exactly as the source does (so a complex type parsed here sees only
the types/groups already collected at that point). -/
def parse_file_pass1 (st : ParserState) (root : XNode) : ParserState :=
  let st1 := ((findallDesc root "complexType").filter
      (fun t => (t.get "name").isSome)).foldl
    (fun s t => match t.get "name" with
      | some n =>
          let ti := parse_complex_type s.types s.groups t
          { s with types := dictInsert s.types n ti }
      | none => s) st
  let st2 := ((findallDesc root "simpleType").filter
      (fun t => (t.get "name").isSome)).foldl
    (fun s t => match t.get "name" with
      | some n => { s with types := dictInsert s.types n (parse_simple_type t) }
      | none => s) st1
  ((findallDesc root "group").filter (fun g => (g.get "name").isSome)).foldl
    (fun s g => match g.get "name" with
      | some n => { s with groups := dictInsert s.groups n (parse_group g) }
      | none => s) st2

/-- `XsdParser.parse_file` after a successful `ET.parse`: the two-pass
walk (types and groups first, then the document's top-level elements). -/
def parse_file (st : ParserState) (root : XNode) (nspace : String) :
    ParserState :=
  let s1 := parse_file_pass1 st root
  (findallChild root "element").foldl
    (fun s e => match parse_element s e nspace with
      | some d => { s with elements := dictInsert s.elements d.name d }
      | none => s) s1

/-- The body of `resolve_relationships`' innermost update: append `p` to
the parents of the first dict entry named `c` unless already present
(`if name not in …parents: …parents.append(name)`). -/
def addParent : List (String × ElementDescriptor) → String → String →
    List (String × ElementDescriptor)
  | [], _, _ => []
  | (k, e) :: rest, c, p =>
      if k = c then
        (k, if p ∈ e.parents then e
            else { e with parents := e.parents ++ [p] }) :: rest
      else (k, e) :: addParent rest c p

/-- One iteration of `resolve_relationships`' inner loop: the update is
guarded by `if child_name in self.elements`. -/
def resolveStep (acc : List (String × ElementDescriptor)) (p c : String) :
    List (String × ElementDescriptor) :=
  if (acc.lookup c).isSome then addParent acc c p else acc

/-- One iteration of `resolve_relationships`' outer loop: process one
descriptor's `(name, children)` pair. -/
def resolveElemStep (acc : List (String × ElementDescriptor))
    (pc : String × List String) : List (String × ElementDescriptor) :=
  pc.2.foldl (fun a c => resolveStep a pc.1 c) acc

/-- `XsdParser.resolve_relationships`: for each descriptor in iteration
order and each of its children in order, add the descriptor's name to the
child's parents when the child is a known descriptor.  The children lists
are never mutated by the loop, so iterating over a snapshot of
`(name, children)` pairs is exact. -/
def resolve_relationships (es : List (String × ElementDescriptor)) :
    List (String × ElementDescriptor) :=
  (es.map (fun p => (p.1, p.2.children))).foldl resolveElemStep es

/-- The attribute-description fill
`existing_attrs[attr_name]["description"] = …` on the first dict entry
named `n`. -/
def setAttrDescription : List (String × AttrDef) → String → String →
    List (String × AttrDef)
  | [], _, _ => []
  | (k, d) :: rest, n, desc =>
      if k = n then (k, { d with description := desc }) :: rest
      else (k, d) :: setAttrDescription rest n desc

/-- One iteration of `merge_element`'s attribute loop on the (aliased)
existing attribute dict: a new attribute is appended; for an attribute
present in both, only an empty (falsy) existing description is filled
from the extraction — the existing `type`/`required`/`default` are left
untouched. -/
def mergeAttrStep (acc : List (String × AttrDef)) (p : String × AttrDef) :
    List (String × AttrDef) :=
  match acc.lookup p.1 with
  | none => acc ++ [p]
  | some old =>
      if old.description = "" then setAttrDescription acc p.1 p.2.description
      else acc

/-- The whole attribute-merge loop of `merge_element`. -/
def mergeAttrs (existing_attrs extracted : List (String × AttrDef)) :
    List (String × AttrDef) :=
  extracted.foldl mergeAttrStep existing_attrs

/-- `merge_element(existing, extracted)`: the returned merged descriptor.
The element description is taken from the extraction only when the
existing one is falsy; children and parents are sorted set unions. -/
def merge_element (existing extracted : ElementDescriptor) : ElementDescriptor :=
  { existing with
    description :=
      if existing.description = "" then extracted.description
      else existing.description,
    attributes := mergeAttrs existing.attributes extracted.attributes,
    children := sortedUnion existing.children extracted.children,
    parents := sortedUnion existing.parents extracted.parents }

/-- The caller's `existing` dict after `merge_element` returns:
`result = existing.copy()` is a shallow copy and
`existing_attrs = existing.get("attributes", {})` aliases the caller's
attribute dict, which the loop then mutates in place — so after the call
the existing descriptor's `attributes` mapping has been updated to the
merged one while its other fields are untouched. -/
def merge_element_post (existing extracted : ElementDescriptor) :
    ElementDescriptor :=
  { existing with
    attributes := mergeAttrs existing.attributes extracted.attributes }

/-- What `main`'s per-element loop does with one extracted element. -/
inductive ProcessAction where
  | created (d : ElementDescriptor)
  | updated (d : ElementDescriptor)
  | skipped
deriving DecidableEq, Repr

/-- The merge/write decision of `update-from-xsd.py`'s `main` for one
element: with an existing on-disk descriptor the element is merged and
written only under `--force`, otherwise it is skipped; without an
existing descriptor the fresh descriptor is written. -/
def process_element (force : Bool) (existing : Option ElementDescriptor)
    (element : ElementDescriptor) : ProcessAction :=
  match existing with
  | some ex => if force then .updated (merge_element ex element) else .skipped
  | none => .created element

/-- `XsdParser.parse_file` including its `except ET.ParseError` handler: a
document that fails to parse as XML (`none` here) is reported to stderr
and the method returns, leaving the parser state unchanged; the caller
continues with the remaining schemas. -/
def parse_file_or_skip (st : ParserState) (doc : Option XNode)
    (nspace : String) : ParserState :=
  match doc with
  | none => st
  | some root => parse_file st root nspace

/-- The schema loop of `main`: each (parse result, namespace) pair is fed
to `parse_file`, accumulating one parser state across all schemas. -/
def run_schemas (st : ParserState) (docs : List (Option XNode × String)) :
    ParserState :=
  docs.foldl (fun s d => parse_file_or_skip s d.1 d.2) st

/-- The tail of `update-from-xsd.py`'s `main` after the schema loop:
relationships are resolved, and if no elements were extracted the run
exits with status 1 writing nothing; otherwise the resolved element set
is handed to the merge/write loop. -/
def main_extract (docs : List (Option XNode × String)) :
    Except Nat (List (String × ElementDescriptor)) :=
  let st := run_schemas ParserState.empty docs
  let es := resolve_relationships st.elements
  if es.isEmpty then Except.error 1 else Except.ok es

/-- The characters after the last `:` of a string (the current segment is
carried reversed). -/
def lastPartChars : List Char → List Char → List Char
  | [], cur => cur.reverse
  | c :: rest, cur =>
      if c = ':' then lastPartChars rest [] else lastPartChars rest (c :: cur)

/-- `type_str.split(":")[-1]`: drop a namespace prefix — the characters
after the last colon (the whole string when there is none). -/
def lastPart (s : String) : String :=
  String.mk (lastPartChars s.data [])

/-- The `type_map` table of `extract-xsd.py`'s `parse_type_name`. -/
def exTypeMap : List (String × String) :=
  [("string", "string"), ("NMTOKEN", "string"), ("NMTOKENS", "string"),
   ("token", "string"), ("normalizedString", "string"),
   ("integer", "integer"), ("int", "integer"), ("positiveInteger", "integer"),
   ("nonNegativeInteger", "integer"), ("long", "integer"), ("short", "integer"),
   ("boolean", "yesno"), ("Guid", "guid"), ("GuidType", "guid"),
   ("ComponentGuid", "guid"), ("AutogenGuid", "guid"), ("YesNoType", "yesno"),
   ("YesNoDefaultType", "yesno"), ("YesNoButtonType", "yesno"),
   ("VersionType", "version"), ("LocalizableInteger", "integer")]

/-- `extract-xsd.py`'s `parse_type_name`: `None` maps to `"string"`, any
other type name is stripped of its namespace prefix and looked up in the
fixed table, defaulting to `"string"`. -/
def ex_parse_type_name (t : Option String) : String :=
  match t with
  | none => "string"
  | some s => (exTypeMap.lookup (lastPart s)).getD "string"

/-- `"".join(element.itertext())` restricted to the text fields of the
subtree (the model's nodes carry no tail text, so tails are absent). -/
def allText : XNode → String
  | .mk _ _ t kids => (t.getD "") ++ go kids
where go : List XNode → String
  | [] => ""
  | n :: rest => allText n ++ go rest

/-- `extract-xsd.py`'s `parse_documentation`: the itertext of the first
`documentation` child of the first `annotation` child, stripped and with
whitespace runs collapsed; `""` when absent. -/
def ex_parse_documentation (elem : XNode) : String :=
  match findChild elem "annotation" with
  | some ann =>
      match findChild ann "documentation" with
      | some d => normWs (allText d)
      | none => ""
  | none => ""

/-- `extract-xsd.py`'s `parse_enum_values`: the truthy `value`s of the
`enumeration` children of the node's first `restriction` child. -/
def ex_parse_enum_values (t : XNode) : List String :=
  match findChild t "restriction" with
  | some r => (findallChild r "enumeration").filterMap (fun e =>
      match e.get "value" with
      | some v => if v = "" then none else some v
      | none => none)
  | none => []

/-- `extract-xsd.py`'s `parse_attribute`: the attribute-definition dict,
upgraded to an enum first by a named simple type with values and then by
an inline `simpleType` child with values. -/
def ex_parse_attribute (attr : XNode)
    (simple_types : List (String × List String)) : AttrDef :=
  let attr_type := (attr.get "type").getD "string"
  let use := (attr.get "use").getD "optional"
  let dflt := attr.get "default"
  let base : AttrDef :=
    { type := ex_parse_type_name (some attr_type)
      required := use == "required"
      description := ex_parse_documentation attr
      default := match dflt with
        | some d => if d = "" then none else some d
        | none => none
      values := none }
  let base1 :=
    if attr_type = "" then base
    else match simple_types.lookup (lastPart attr_type) with
      | some vals =>
          if vals ≠ [] then { base with type := "enum", values := some vals }
          else base
      | none => base
  match findChild attr "simpleType" with
  | some it =>
      let vals := ex_parse_enum_values it
      if vals ≠ [] then { base1 with type := "enum", values := some vals }
      else base1
  | none => base1

/-- The complex type used by `extract-xsd.py`'s `parse_element`: an inline
`complexType` child, else the named top-level complex type found under a
`type:`-prefixed key. -/
def ex_resolveCT (elem : XNode) (all_elements : List (String × XNode)) :
    Option XNode :=
  match findChild elem "complexType" with
  | some c => some c
  | none =>
      match elem.get "type" with
      | some tr =>
          if tr = "" then none
          else all_elements.lookup ("type:" ++ lastPart tr)
      | none => none

/-- The attribute loop of `extract-xsd.py`'s `parse_element`. -/
def ex_attrsOf (c : XNode) (simple_types : List (String × List String)) :
    List (String × AttrDef) :=
  (findallDesc c "attribute").foldl
    (fun acc a =>
      match a.get "name" with
      | some an =>
          if an = "" then acc
          else dictInsert acc an (ex_parse_attribute a simple_types)
      | none => acc) []

/-- The children loop of `extract-xsd.py`'s `parse_element`: every
`element` descendant of the complex type contributes its `ref`-or-`name`
(namespace prefix stripped), appended only when not already present. -/
def ex_childStep (acc : List String) (ce : XNode) : List String :=
  match pyOrOpt (ce.get "ref") (ce.get "name") with
  | some cn0 =>
      if cn0 = "" then acc
      else
        let cn := lastPart cn0
        if cn ∈ acc then acc else acc ++ [cn]
  | none => acc

/-- The whole children loop of `extract-xsd.py`'s `parse_element`. -/
def ex_childrenOf (c : XNode) : List String :=
  (findallDesc c "element").foldl ex_childStep []

/-- `extract-xsd.py`'s `parse_element`: `none` for a nameless element;
otherwise the descriptor, its complex type found inline or through the
`type:`-prefixed table of named complex types. -/
def ex_parse_element (elem : XNode)
    (simple_types : List (String × List String))
    (all_elements : List (String × XNode)) : Option ElementDescriptor :=
  match elem.get "name" with
  | none => none
  | some name =>
    if name = "" then none
    else
      let ac : List (String × AttrDef) × List String :=
        match ex_resolveCT elem all_elements with
        | none => ([], [])
        | some c => (ex_attrsOf c simple_types, ex_childrenOf c)
      some { name := name, nspace := "wix", since := "v4",
             description := ex_parse_documentation elem,
             documentation :=
               "https://wixtoolset.org/docs/schema/wxs/" ++ pyLower name ++ "/",
             parents := [], children := ac.2, attributes := ac.1 }

/-- `extract-xsd.py`'s `extract_simple_types`: every named `simpleType`
descendant with a nonempty enumeration. -/
def ex_extract_simple_types (root : XNode) : List (String × List String) :=
  (findallDesc root "simpleType").foldl
    (fun acc t =>
      match t.get "name" with
      | some n =>
          if n = "" then acc
          else
            let vals := ex_parse_enum_values t
            if vals ≠ [] then dictInsert acc n vals else acc
      | none => acc) []

/-- `extract-xsd.py`'s `extract_elements`: collect the named top-level
complex types under `type:` keys, then parse every top-level element. -/
def ex_extract_elements (root : XNode)
    (simple_types : List (String × List String)) : List ElementDescriptor :=
  let all_elements := (findallChild root "complexType").foldl
    (fun acc c =>
      match c.get "name" with
      | some n => if n = "" then acc else dictInsert acc ("type:" ++ n) c
      | none => acc) []
  (findallChild root "element").foldl
    (fun acc e =>
      match ex_parse_element e simple_types all_elements with
      | some d => acc ++ [d]
      | none => acc) []
/-! ### Association-list lemmas -/

theorem lookup_append {α : Type} (l1 l2 : List (String × α)) (n : String) :
    (l1 ++ l2).lookup n = ((l1.lookup n).orElse (fun _ => l2.lookup n)) := by
  induction l1 with
  | nil => simp [List.lookup]
  | cons p rest ih =>
    obtain ⟨k, v⟩ := p
    by_cases h : n = k
    · have hb : (n == k) = true := beq_iff_eq.mpr h
      simp [List.lookup, hb]
    · have hb : (n == k) = false := beq_eq_false_iff_ne.mpr h
      simp [List.lookup, hb, ih]

theorem lookup_append_some {α : Type} {l1 l2 : List (String × α)} {n : String}
    {v : α} (h : l1.lookup n = some v) : (l1 ++ l2).lookup n = some v := by
  rw [lookup_append, h]; rfl

theorem lookup_append_none {α : Type} {l1 l2 : List (String × α)} {n : String}
    (h : l1.lookup n = none) : (l1 ++ l2).lookup n = l2.lookup n := by
  rw [lookup_append, h]; rfl

theorem lookup_eq_none_forall {α : Type} {l : List (String × α)} {n : String}
    (h : l.lookup n = none) : ∀ p ∈ l, p.1 ≠ n := by
  induction l with
  | nil => intro p hp; cases hp
  | cons q rest ih =>
    obtain ⟨k, v⟩ := q
    intro p hp
    by_cases hk : n = k
    · have hb : (n == k) = true := beq_iff_eq.mpr hk
      simp [List.lookup, hb] at h
    · have hb : (n == k) = false := beq_eq_false_iff_ne.mpr hk
      have h' : rest.lookup n = none := by simpa [List.lookup, hb] using h
      rcases List.mem_cons.mp hp with hp | hp
      · subst hp; simpa using fun hc => hk hc.symm
      · exact ih h' p hp

theorem lookup_some_decomp {α : Type} {l : List (String × α)} {n : String}
    {v : α} (h : l.lookup n = some v) (hnd : (l.map Prod.fst).Nodup) :
    ∃ l1 l2, l = l1 ++ (n, v) :: l2 ∧ (∀ p ∈ l1, p.1 ≠ n) ∧
      ∀ p ∈ l2, p.1 ≠ n := by
  induction l with
  | nil => cases h
  | cons q rest ih =>
    obtain ⟨k, w⟩ := q
    rw [List.map_cons, List.nodup_cons] at hnd
    by_cases hk : n = k
    · have hb : (n == k) = true := beq_iff_eq.mpr hk
      have hv : w = v := by simpa [List.lookup, hb] using h
      refine ⟨[], rest, by simp [hk, hv], by simp, ?_⟩
      intro p hp hpn
      have hmem : n ∈ rest.map Prod.fst := by
        have := List.mem_map_of_mem Prod.fst hp
        rwa [hpn] at this
      exact hnd.1 (hk ▸ hmem)
    · have hb : (n == k) = false := beq_eq_false_iff_ne.mpr hk
      have h' : rest.lookup n = some v := by simpa [List.lookup, hb] using h
      obtain ⟨l1, l2, heq, h1, h2⟩ := ih h' hnd.2
      refine ⟨(k, w) :: l1, l2, by simp [heq], ?_, h2⟩
      intro p hp
      rcases List.mem_cons.mp hp with hp | hp
      · subst hp; simpa using fun hc => hk hc.symm
      · exact h1 p hp

theorem lookup_setAttrDescription (l : List (String × AttrDef))
    (k desc n : String) :
    (setAttrDescription l k desc).lookup n =
      if n = k then (l.lookup n).map (fun d => { d with description := desc })
      else l.lookup n := by
  induction l with
  | nil => simp [setAttrDescription, List.lookup]
  | cons q rest ih =>
    obtain ⟨k', d⟩ := q
    by_cases hk : k' = k
    · by_cases hn : n = k'
      · have hb : (n == k') = true := beq_iff_eq.mpr hn
        simp [setAttrDescription, hk, List.lookup, hb, hn.trans hk]
      · have hb : (n == k') = false := beq_eq_false_iff_ne.mpr hn
        have hnk : ¬ n = k := fun hc => hn (hc.trans hk.symm)
        have hb' : (n == k) = false := beq_eq_false_iff_ne.mpr hnk
        simp [setAttrDescription, hk, List.lookup, hb, hb', hnk]
    · by_cases hn : n = k'
      · have hb : (n == k') = true := beq_iff_eq.mpr hn
        have hnk : ¬ n = k := fun hc => hk (hn.symm.trans hc)
        simp [setAttrDescription, hk, List.lookup, hb, hnk]
      · have hb : (n == k') = false := beq_eq_false_iff_ne.mpr hn
        simp [setAttrDescription, hk, List.lookup, hb, ih]

theorem mergeAttrStep_lookup_ne {acc : List (String × AttrDef)}
    {p : String × AttrDef} {n : String} (h : p.1 ≠ n) :
    (mergeAttrStep acc p).lookup n = acc.lookup n := by
  obtain ⟨k, v⟩ := p
  have hk : k ≠ n := h
  rcases hl : acc.lookup k with _ | old
  · simp only [mergeAttrStep, hl]
    rw [lookup_append]
    cases ha : acc.lookup n with
    | some w => rfl
    | none =>
        have hb : (n == k) = false := beq_eq_false_iff_ne.mpr (fun hc => hk hc.symm)
        simp [List.lookup, hb]
  · simp only [mergeAttrStep, hl]
    by_cases hd : old.description = ""
    · rw [if_pos hd, lookup_setAttrDescription, if_neg (fun hc => hk hc.symm)]
    · rw [if_neg hd]

theorem mergeAttrStep_preserve_desc {acc : List (String × AttrDef)}
    {p : String × AttrDef} {n : String} {d : AttrDef}
    (h : acc.lookup n = some d) (hd : d.description ≠ "") :
    (mergeAttrStep acc p).lookup n = some d := by
  obtain ⟨k, v⟩ := p
  by_cases hkn : k = n
  · subst hkn
    simp only [mergeAttrStep, h]
    rw [if_neg hd]
    exact h
  · rw [mergeAttrStep_lookup_ne hkn]
    exact h

theorem foldl_mergeAttrStep_ne {xs : List (String × AttrDef)}
    {acc : List (String × AttrDef)} {n : String}
    (h : ∀ p ∈ xs, p.1 ≠ n) :
    (xs.foldl mergeAttrStep acc).lookup n = acc.lookup n := by
  induction xs generalizing acc with
  | nil => rfl
  | cons p rest ih =>
    rw [List.foldl_cons, ih (fun q hq => h q (List.mem_cons_of_mem p hq)),
      mergeAttrStep_lookup_ne (h p (List.mem_cons_self p rest))]

theorem mergeAttrs_preserve_desc {ex xs : List (String × AttrDef)}
    {n : String} {d : AttrDef} (h : ex.lookup n = some d)
    (hd : d.description ≠ "") : (mergeAttrs ex xs).lookup n = some d := by
  unfold mergeAttrs
  induction xs generalizing ex with
  | nil => exact h
  | cons p rest ih => exact ih (mergeAttrStep_preserve_desc h hd)

theorem mergeAttrs_adds_new {ex xs : List (String × AttrDef)} {n : String}
    {d : AttrDef} (hnd : (xs.map Prod.fst).Nodup)
    (hx : xs.lookup n = some d) (he : ex.lookup n = none) :
    (mergeAttrs ex xs).lookup n = some d := by
  obtain ⟨l1, l2, heq, h1, h2⟩ := lookup_some_decomp hx hnd
  subst heq
  unfold mergeAttrs
  rw [List.foldl_append, List.foldl_cons]
  have hacc : (l1.foldl mergeAttrStep ex).lookup n = none := by
    rw [foldl_mergeAttrStep_ne h1]; exact he
  have hstep : (mergeAttrStep (l1.foldl mergeAttrStep ex) (n, d)).lookup n
      = some d := by
    simp only [mergeAttrStep, hacc]
    rw [lookup_append_none hacc]
    simp [List.lookup]
  rw [foldl_mergeAttrStep_ne h2, hstep]

theorem mergeAttrs_fills_empty {ex xs : List (String × AttrDef)} {n : String}
    {d dx : AttrDef} (hnd : (xs.map Prod.fst).Nodup)
    (he : ex.lookup n = some d) (hd : d.description = "")
    (hx : xs.lookup n = some dx) :
    (mergeAttrs ex xs).lookup n = some { d with description := dx.description } := by
  obtain ⟨l1, l2, heq, h1, h2⟩ := lookup_some_decomp hx hnd
  subst heq
  unfold mergeAttrs
  rw [List.foldl_append, List.foldl_cons]
  have hacc : (l1.foldl mergeAttrStep ex).lookup n = some d := by
    rw [foldl_mergeAttrStep_ne h1]; exact he
  have hstep : (mergeAttrStep (l1.foldl mergeAttrStep ex) (n, dx)).lookup n
      = some { d with description := dx.description } := by
    simp only [mergeAttrStep, hacc, hd, eq_self_iff_true, ite_true]
    rw [lookup_setAttrDescription, if_pos rfl, hacc]
    rfl
  rw [foldl_mergeAttrStep_ne h2, hstep]

theorem sortedUnion_length_ge (a b : List String) (ha : a.Nodup) :
    a.length ≤ (sortedUnion a b).length := by
  have h1 : (sortedUnion a b).length = (a ++ b).dedup.length :=
    (List.perm_insertionSort strLe _).length_eq
  rw [h1, ← List.card_toFinset, ← List.toFinset_card_of_nodup ha]
  exact Finset.card_le_card (by
    rw [List.toFinset_append]; exact Finset.subset_union_left)

/-! ### Merge claims -/

/-- C2: merging extracted data into an existing descriptor never changes a
non-empty description, neither the element-level one nor any existing
attribute's (the whole existing attribute definition is kept unchanged). -/
theorem merge_never_overwrites_nonempty_description (e x : ElementDescriptor) :
    (e.description ≠ "" → (merge_element e x).description = e.description) ∧
    ∀ n d, e.attributes.lookup n = some d → d.description ≠ "" →
      (merge_element e x).attributes.lookup n = some d := by
  refine ⟨fun h => ?_, fun n d hl hd => ?_⟩
  · simp [merge_element, h]
  · exact mergeAttrs_preserve_desc hl hd

/-- Existing attribute with hand-written prose. -/
def attrC2 : AttrDef :=
  { type := "string", required := false, description := "hand-written",
    default := none, values := none }

def eC2 : ElementDescriptor :=
  { name := "Foo", nspace := "wix", since := "v4", description := "kept prose",
    documentation := "", parents := [], children := [],
    attributes := [("Id", attrC2)] }

def xC2 : ElementDescriptor :=
  { name := "Foo", nspace := "wix", since := "v4", description := "from xsd",
    documentation := "", parents := [], children := [],
    attributes := [("Id",
      { type := "integer", required := true, description := "xsd text",
        default := none, values := none })] }

theorem merge_never_overwrites_nonempty_description_witness :
    (merge_element eC2 xC2).description = eC2.description ∧
    (merge_element eC2 xC2).attributes.lookup "Id" = some attrC2 :=
  ⟨(merge_never_overwrites_nonempty_description eC2 xC2).1 (by decide),
   (merge_never_overwrites_nonempty_description eC2 xC2).2 "Id" attrC2
     (by decide) (by decide)⟩

/-- Existing attribute definition: hand-curated structural facts. -/
def attrC5old : AttrDef :=
  { type := "string", required := false, description := "hand-written note",
    default := none, values := none }

/-- Freshly extracted definition for the same attribute, disagreeing on
`type`, `required` and `default`. -/
def attrC5new : AttrDef :=
  { type := "integer", required := true, description := "schema text",
    default := some "1", values := none }

def eC5 : ElementDescriptor :=
  { name := "Foo", nspace := "wix", since := "v4", description := "d",
    documentation := "", parents := [], children := [],
    attributes := [("Id", attrC5old)] }

def xC5 : ElementDescriptor :=
  { name := "Foo", nspace := "wix", since := "v4", description := "d",
    documentation := "", parents := [], children := [],
    attributes := [("Id", attrC5new)] }

/-- C5: contrary to the claim (and to the source's own comment
"update existing types"), for an attribute present in both descriptors
`merge_element` keeps the existing `type`/`required`/`default` unchanged
even though the new extraction disagrees on all three; only the (here
non-empty) description rule fires. -/
theorem merge_keeps_existing_attr_structural_fields :
    (merge_element eC5 xC5).attributes.lookup "Id" = some attrC5old ∧
    attrC5new.type ≠ attrC5old.type ∧
    attrC5new.required ≠ attrC5old.required ∧
    attrC5new.default ≠ attrC5old.default := by decide

/-- Existing descriptor whose on-disk children list carries a duplicate. -/
def eC6 : ElementDescriptor :=
  { name := "Foo", nspace := "wix", since := "v4", description := "d",
    documentation := "", parents := [], children := ["A", "A"],
    attributes := [] }

def xC6 : ElementDescriptor :=
  { name := "Foo", nspace := "wix", since := "v4", description := "d",
    documentation := "", parents := [], children := [], attributes := [] }

/-- C6 counterexample: when the existing children list contains a
duplicate, the merged (deduplicated) children list is strictly shorter
than the existing one, so `|merge(e,x).children| >= |e.children|` fails
as stated. -/
theorem merge_children_can_shrink_on_duplicates :
    (merge_element eC6 xC6).children.length < eC6.children.length := by decide

/-- C6 (amended): merged children and parents are the sorted,
deduplicated union of existing and extracted (so no member is ever
dropped), and the length can only be bounded below by the existing list's
length when that list is itself duplicate-free. -/
theorem merge_children_parents_sorted_union (e x : ElementDescriptor) :
    (∀ c, c ∈ (merge_element e x).children ↔ c ∈ e.children ∨ c ∈ x.children) ∧
    (merge_element e x).children.Nodup ∧
    List.Sorted strLe (merge_element e x).children ∧
    (∀ p, p ∈ (merge_element e x).parents ↔ p ∈ e.parents ∨ p ∈ x.parents) ∧
    (merge_element e x).parents.Nodup ∧
    List.Sorted strLe (merge_element e x).parents ∧
    (e.children.Nodup → e.children.length ≤ (merge_element e x).children.length) ∧
    (e.parents.Nodup → e.parents.length ≤ (merge_element e x).parents.length) :=
  ⟨fun _ => mem_sortedUnion, sortedUnion_nodup _ _, sortedUnion_sorted _ _,
   fun _ => mem_sortedUnion, sortedUnion_nodup _ _, sortedUnion_sorted _ _,
   fun h => sortedUnion_length_ge _ _ h, fun h => sortedUnion_length_ge _ _ h⟩

def eC6w : ElementDescriptor :=
  { name := "Foo", nspace := "wix", since := "v4", description := "d",
    documentation := "", parents := ["P"], children := ["B", "A"],
    attributes := [] }

def xC6w : ElementDescriptor :=
  { name := "Foo", nspace := "wix", since := "v4", description := "d",
    documentation := "", parents := ["Q"], children := ["C"],
    attributes := [] }

theorem merge_children_parents_sorted_union_witness :
    eC6w.children.length ≤ (merge_element eC6w xC6w).children.length ∧
    eC6w.parents.length ≤ (merge_element eC6w xC6w).parents.length :=
  ⟨(merge_children_parents_sorted_union eC6w xC6w).2.2.2.2.2.2.1 (by decide),
   (merge_children_parents_sorted_union eC6w xC6w).2.2.2.2.2.2.2 (by decide)⟩

/-- C10: `merge_element` is not pure in its `existing` argument: the
shallow `existing.copy()` aliases the caller's attribute dict, which the
loop mutates.  `merge_element_post` is the caller's descriptor after the
call: its attributes equal the merged attributes (one shared mapping),
having gained the newly extracted attributes and had empty attribute
descriptions filled in, while every other field of the existing object is
untouched. -/
theorem merge_element_mutates_existing (e x : ElementDescriptor)
    (hnd : (x.attributes.map Prod.fst).Nodup) :
    (merge_element_post e x).attributes = (merge_element e x).attributes ∧
    (merge_element_post e x).name = e.name ∧
    (merge_element_post e x).description = e.description ∧
    (merge_element_post e x).children = e.children ∧
    (merge_element_post e x).parents = e.parents ∧
    (∀ n d, x.attributes.lookup n = some d → e.attributes.lookup n = none →
      (merge_element_post e x).attributes.lookup n = some d) ∧
    ∀ n d dx, e.attributes.lookup n = some d → d.description = "" →
      x.attributes.lookup n = some dx →
      (merge_element_post e x).attributes.lookup n =
        some { d with description := dx.description } :=
  ⟨rfl, rfl, rfl, rfl, rfl,
   fun _ _ hx he => mergeAttrs_adds_new hnd hx he,
   fun _ _ _ he hd hx => mergeAttrs_fills_empty hnd he hd hx⟩

def attrC10old : AttrDef :=
  { type := "string", required := false, description := "",
    default := none, values := none }

def attrC10fill : AttrDef :=
  { type := "string", required := false, description := "filled from xsd",
    default := none, values := none }

def attrC10new : AttrDef :=
  { type := "guid", required := true, description := "new attr",
    default := none, values := none }

def eC10 : ElementDescriptor :=
  { name := "Foo", nspace := "wix", since := "v4", description := "d",
    documentation := "", parents := [], children := [],
    attributes := [("Old", attrC10old)] }

def xC10 : ElementDescriptor :=
  { name := "Foo", nspace := "wix", since := "v4", description := "d2",
    documentation := "", parents := [], children := [],
    attributes := [("Old", attrC10fill), ("New", attrC10new)] }

theorem merge_element_mutates_existing_witness :
    (merge_element_post eC10 xC10).attributes =
      (merge_element eC10 xC10).attributes ∧
    (merge_element_post eC10 xC10).attributes.lookup "New" = some attrC10new ∧
    (merge_element_post eC10 xC10).attributes.lookup "Old" =
      some { attrC10old with description := attrC10fill.description } :=
  ⟨(merge_element_mutates_existing eC10 xC10 (by decide)).1,
   (merge_element_mutates_existing eC10 xC10 (by decide)).2.2.2.2.2.1
     "New" attrC10new (by decide) (by decide),
   (merge_element_mutates_existing eC10 xC10 (by decide)).2.2.2.2.2.2
     "Old" attrC10old attrC10fill (by decide) (by decide) (by decide)⟩

/-! ### Merge/write stage and error handling of the run -/

/-- C4 (amended): with an existing on-disk descriptor the extracted
element is merged and written only when `--force` is given; without
`--force` it is skipped untouched; without an existing descriptor the
fresh descriptor is written. -/
theorem process_element_merge_write_decision (force : Bool)
    (existing : Option ElementDescriptor) (el : ElementDescriptor) :
    (∀ ex, existing = some ex → force = true →
      process_element force existing el =
        ProcessAction.updated (merge_element ex el)) ∧
    (∀ ex, existing = some ex → force = false →
      process_element force existing el = ProcessAction.skipped) ∧
    (existing = none → process_element force existing el =
      ProcessAction.created el) := by
  refine ⟨fun ex hex hf => ?_, fun ex hex hf => ?_, fun h => ?_⟩ <;>
    subst_vars <;> rfl

def eC4 : ElementDescriptor :=
  { name := "Component", nspace := "wix", since := "v4", description := "old",
    documentation := "", parents := [], children := ["File"],
    attributes := [] }

def xC4 : ElementDescriptor :=
  { name := "Component", nspace := "wix", since := "v4", description := "new",
    documentation := "", parents := ["Bundle"], children := ["Shortcut"],
    attributes := [] }

/-- C4 counterexample: with an existing descriptor but without `--force`,
`main` skips the element — nothing is merged or written, contradicting
the claim that an existing descriptor is always merged into. -/
theorem process_element_skips_existing_without_force :
    process_element false (some eC4) xC4 = ProcessAction.skipped ∧
    process_element false (some eC4) xC4 ≠
      ProcessAction.updated (merge_element eC4 xC4) := by decide

theorem process_element_merge_write_decision_witness :
    process_element true (some eC4) xC4 =
      ProcessAction.updated (merge_element eC4 xC4) ∧
    process_element false (some eC4) xC4 = ProcessAction.skipped ∧
    process_element true none xC4 = ProcessAction.created xC4 :=
  ⟨(process_element_merge_write_decision true (some eC4) xC4).1 eC4 rfl rfl,
   (process_element_merge_write_decision false (some eC4) xC4).2.1 eC4 rfl rfl,
   (process_element_merge_write_decision true none xC4).2.2 rfl⟩

/-- An XML node with no text, for building concrete schema documents. -/
def xnd (tag : String) (xattrs : List (String × String))
    (kids : List XNode) : XNode :=
  XNode.mk tag xattrs none kids

/-- A well-formed schema declaring one element `Bundle`. -/
def docC3 : XNode :=
  xnd "schema" [] [xnd "element" [("name", "Bundle")] []]

/-- `extract-xsd.py`'s `main` around the parse: `ET.fromstring` runs
before any output directory is created or any file is saved, and a
`ParseError` there is uncaught, so a malformed document (`none`) aborts
the process with nothing written; otherwise every extracted element is
saved. -/
def ex_main (doc : Option XNode) : Except Unit (List ElementDescriptor) :=
  match doc with
  | none => Except.error ()
  | some root => Except.ok (ex_extract_elements root (ex_extract_simple_types root))

/-- C3 counterexample (for `update-from-xsd.py`): a run over a malformed
first schema and a well-formed second schema does not abort — it
completes with exit status 0 and produces the second schema's descriptor
(`Bundle`), which the write loop then writes. -/
theorem malformed_schema_does_not_abort_run :
    (main_extract [(none, "wxs"), (some docC3, "bal")]).toOption.map
        (fun es => es.map Prod.fst) = some ["Bundle"] ∧
    ((run_schemas ParserState.empty [(none, "wxs"), (some docC3, "bal")]).elements.lookup
        "Bundle").map (fun d => d.description) = some "The Bundle element." := by
  exact ⟨by decide, by decide⟩

/-- C3 (amended): in `update-from-xsd.py` a document that fails XML
parsing is logged and skipped — the parser state is unchanged and the
run continues with the remaining schemas — and only a run in which
nothing was extracted at all exits non-zero without writing; in
`extract-xsd.py` the single document is parsed before anything is
written, so a parse failure there aborts with no output. -/
theorem parse_failure_skips_schema (st : ParserState) (ns : String)
    (docs : List (Option XNode × String)) :
    parse_file_or_skip st none ns = st ∧
    run_schemas st ((none, ns) :: docs) = run_schemas st docs ∧
    ((∀ d ∈ docs, d.1 = none) → main_extract docs = Except.error 1) ∧
    ex_main none = Except.error () := by
  have hrun : ∀ (l : List (Option XNode × String)) (s : ParserState),
      (∀ d ∈ l, d.1 = none) → run_schemas s l = s := by
    intro l
    induction l with
    | nil => intro s _; rfl
    | cons d rest ih =>
      intro s hall
      have hd : d.1 = none := hall d (List.mem_cons_self d rest)
      have : parse_file_or_skip s d.1 d.2 = s := by rw [hd]; rfl
      calc run_schemas s (d :: rest)
          = run_schemas (parse_file_or_skip s d.1 d.2) rest := rfl
        _ = run_schemas s rest := by rw [this]
        _ = s := ih s (fun q hq => hall q (List.mem_cons_of_mem d hq))
  refine ⟨rfl, rfl, fun hall => ?_, rfl⟩
  unfold main_extract
  rw [hrun docs ParserState.empty hall]
  rfl

theorem parse_failure_skips_schema_witness :
    main_extract [((none : Option XNode), "wxs")] = Except.error 1 :=
  (parse_failure_skips_schema ParserState.empty "wxs"
    [(none, "wxs")]).2.2.1 (by
      intro d hd
      rcases List.mem_singleton.mp hd with rfl
      rfl)

/-! ### Safe fallbacks for unknown references -/

/-- C9: unknown references never raise. (1) An element whose declared type
is unknown and that has no inline complex type still yields a descriptor
with empty attributes and children; (2) an attribute type unknown to both
the fixed mapping and the type table maps to plain `"string"`; (3) group
references that are unknown contribute no children; (4) `extract-xsd.py`'s
`parse_type_name` defaults unknown types to `"string"`. -/
theorem unknown_references_safe_fallbacks :
    (∀ st elem nspace t name, elem.get "type" = some t → t ≠ "" →
      st.types.lookup t = none → findChild elem "complexType" = none →
      elem.get "name" = some name → name ≠ "" →
      (parse_element st elem nspace).map
        (fun d => (d.attributes, d.children)) = some ([], [])) ∧
    (∀ types attr nm t, attr.get "name" = some nm → nm ≠ "" →
      attr.get "type" = some t → typeMapping.lookup t = none →
      types.lookup t = none →
      (parse_attribute types attr).map (fun p => p.2.type) = some "string") ∧
    (∀ groups t, (∀ g ∈ findallDesc t "group",
        ∀ r, g.get "ref" = some r → r ≠ "" → groups.lookup r = none) →
      groupChildren groups t = []) ∧
    (∀ t, exTypeMap.lookup (lastPart t) = none →
      ex_parse_type_name (some t) = "string") := by
  refine ⟨?_, ?_, ?_, ?_⟩
  · intro st elem nspace t name ht htne hlook hinline hname hnamene
    have hnamed : usesNamedType st.types elem = false := by
      simp [usesNamedType, ht, htne, hlook]
    simp [parse_element, hname, hnamene, hnamed, hinline]
  · intro types attr nm t hname hnm ht hmap htypes
    simp [parse_attribute, hname, hnm, ht, hmap, htypes]
  · intro groups t hall
    unfold groupChildren
    have hstep : ∀ (acc : List String) g, g ∈ findallDesc t "group" →
        groupStep groups acc g = acc := by
      intro acc g hg
      rcases hr : g.get "ref" with _ | r
      · simp [groupStep, hr]
      · by_cases hre : r = ""
        · simp [groupStep, hr, hre]
        · simp [groupStep, hr, hre, hall g hg r hr hre]
    have : ∀ (l : List XNode) (acc : List String),
        (∀ g ∈ l, g ∈ findallDesc t "group") →
        l.foldl (groupStep groups) acc = acc := by
      intro l
      induction l with
      | nil => intro acc _; rfl
      | cons g rest ih =>
        intro acc hsub
        rw [List.foldl_cons, hstep acc g (hsub g (List.mem_cons_self g rest))]
        exact ih acc (fun q hq => hsub q (List.mem_cons_of_mem g hq))
    exact this _ [] (fun g hg => hg)
  · intro t h
    simp [ex_parse_type_name, h]

/-- An element whose declared type is never defined anywhere. -/
def elemC9 : XNode :=
  xnd "element" [("name", "Orphan"), ("type", "NeverDefinedType")] []

/-- An attribute whose type name is unknown everywhere. -/
def attrC9 : XNode :=
  xnd "attribute" [("name", "Id"), ("type", "MysteryType")] []

/-- A complex type whose only group reference names an unknown group. -/
def ctC9 : XNode :=
  xnd "complexType" [] [xnd "sequence" [] [], xnd "group" [("ref", "NoSuchGroup")] []]

theorem unknown_references_safe_fallbacks_witness :
    ((parse_element ParserState.empty elemC9 "wix").map
      (fun d => (d.attributes, d.children)) = some ([], [])) ∧
    (parse_attribute [] attrC9).map (fun p => p.2.type) = some "string" ∧
    groupChildren [] ctC9 = [] ∧
    ex_parse_type_name (some "xs:MysteryType") = "string" := by
  have h1 := unknown_references_safe_fallbacks.1 ParserState.empty elemC9 "wix"
    "NeverDefinedType" "Orphan" (by decide) (by decide) (by decide) (by decide)
    (by decide) (by decide)
  have h2 := unknown_references_safe_fallbacks.2.1 [] attrC9 "Id" "MysteryType"
    (by decide) (by decide) (by decide) (by decide) (by decide)
  have h3 := unknown_references_safe_fallbacks.2.2.1 [] ctC9 (by
    intro g hg r hr hre
    rfl)
  have h4 := unknown_references_safe_fallbacks.2.2.2 "xs:MysteryType" (by decide)
  exact ⟨h1, h2, h3, h4⟩

/-! ### Deduplication of children -/

theorem ex_childStep_nodup {acc : List String} {ce : XNode}
    (h : acc.Nodup) : (ex_childStep acc ce).Nodup := by
  rcases hr : pyOrOpt (ce.get "ref") (ce.get "name") with _ | cn0
  · simpa [ex_childStep, hr] using h
  · by_cases he : cn0 = ""
    · simpa [ex_childStep, hr, he] using h
    · by_cases hm : lastPart cn0 ∈ acc
      · simpa [ex_childStep, hr, he, hm] using h
      · have : (ex_childStep acc ce) = acc ++ [lastPart cn0] := by
          simp [ex_childStep, hr, he, hm]
        rw [this, List.nodup_append]
        exact ⟨h, List.nodup_singleton _,
          fun a ha hb => hm ((List.mem_singleton.mp hb) ▸ ha)⟩

theorem ex_childrenOf_nodup (c : XNode) : (ex_childrenOf c).Nodup := by
  unfold ex_childrenOf
  have : ∀ (l : List XNode) (acc : List String), acc.Nodup →
      (l.foldl ex_childStep acc).Nodup := by
    intro l
    induction l with
    | nil => intro acc h; exact h
    | cons ce rest ih =>
      intro acc h
      exact ih (ex_childStep acc ce) (ex_childStep_nodup h)
  exact this _ [] List.nodup_nil

/-- C8 (amended): every descriptor produced by `extract-xsd.py`'s
`parse_element` has a deduplicated children list, no matter how often the
schema mentions a child. -/
theorem ex_parse_element_children_nodup (elem : XNode)
    (sts : List (String × List String)) (ae : List (String × XNode))
    (d : ElementDescriptor) (h : ex_parse_element elem sts ae = some d) :
    d.children.Nodup := by
  rcases hn : elem.get "name" with _ | name
  · simp [ex_parse_element, hn] at h
  · by_cases hne : name = ""
    · simp [ex_parse_element, hn, hne] at h
    · rcases hct : ex_resolveCT elem ae with _ | c
      · simp only [ex_parse_element, hn, hne, ite_false, hct,
          Option.some.injEq] at h
        rw [← h]
        exact List.nodup_nil
      · simp only [ex_parse_element, hn, hne, ite_false, hct,
          Option.some.injEq] at h
        rw [← h]
        exact ex_childrenOf_nodup c

/-- An element declaring the same child `A` twice in its inline type. -/
def elemC8 : XNode :=
  xnd "element" [("name", "Outer")] [
    xnd "complexType" [] [
      xnd "sequence" [] [
        xnd "element" [("ref", "A")] [],
        xnd "element" [("ref", "A")] []]]]

/-- The descriptor `extract-xsd.py` produces for `elemC8`: `A` listed
once. -/
def dC8 : ElementDescriptor :=
  { name := "Outer", nspace := "wix", since := "v4", description := "",
    documentation := "https://wixtoolset.org/docs/schema/wxs/outer/",
    parents := [], children := ["A"], attributes := [] }

theorem ex_parse_element_children_nodup_witness : dC8.children.Nodup :=
  ex_parse_element_children_nodup elemC8 [] [] dC8 (by decide)

/-- The same duplicated-child schema, as a document for
`update-from-xsd.py`. -/
def docC8 : XNode :=
  xnd "schema" [] [
    xnd "element" [("name", "Dup")] [
      xnd "complexType" [] [
        xnd "sequence" [] [
          xnd "element" [("ref", "A")] [],
          xnd "element" [("ref", "A")] []]]]]

/-- C8 counterexample: `update-from-xsd.py`'s parser performs no
deduplication — the descriptor it produces for `Dup` lists the child `A`
twice. -/
theorem update_parser_children_not_deduplicated :
    ((parse_file ParserState.empty docC8 "wix").elements.lookup "Dup").map
      (fun d => d.children) = some ["A", "A"] ∧
    ¬ (["A", "A"] : List String).Nodup :=
  ⟨by decide, by decide⟩

/-! ### Group indirection -/

theorem groupStep_subset (groups : List (String × List String))
    (acc : List String) (g : XNode) : acc ⊆ groupStep groups acc g := by
  rcases hr : g.get "ref" with _ | r
  · simp [groupStep, hr]
  · by_cases hre : r = ""
    · simp [groupStep, hr, hre]
    · rcases hl : groups.lookup r with _ | gs
      · simp [groupStep, hr, hre, hl]
      · simp only [groupStep, hr, hre, ite_false, hl]
        exact List.subset_append_left acc gs

theorem foldl_groupStep_subset (groups : List (String × List String)) :
    ∀ (l : List XNode) (acc : List String),
      acc ⊆ l.foldl (groupStep groups) acc := by
  intro l
  induction l with
  | nil => intro acc a ha; exact ha
  | cons g rest ih =>
    intro acc
    exact (groupStep_subset groups acc g).trans (ih (groupStep groups acc g))

theorem mem_groupChildren {groups : List (String × List String)} {t g : XNode}
    {G Inner : String} {gs : List String}
    (hg : g ∈ findallDesc t "group") (href : g.get "ref" = some G)
    (hGne : G ≠ "") (hlook : groups.lookup G = some gs)
    (hInner : Inner ∈ gs) : Inner ∈ groupChildren groups t := by
  unfold groupChildren
  have main : ∀ (l : List XNode) (acc : List String), g ∈ l →
      Inner ∈ l.foldl (groupStep groups) acc := by
    intro l
    induction l with
    | nil => intro acc h; cases h
    | cons x rest ih =>
      intro acc hx
      rcases List.mem_cons.mp hx with hx | hx
      · subst hx
        rw [List.foldl_cons]
        apply foldl_groupStep_subset groups rest (groupStep groups acc g)
        have hstep : groupStep groups acc g = acc ++ gs := by
          simp [groupStep, href, hGne, hlook]
        rw [hstep]
        exact List.mem_append_right acc hInner
      · rw [List.foldl_cons]
        exact ih (groupStep groups acc x) hx
  exact main _ [] hg

/-- C7 (amended): one level of group indirection is followed for an
element whose content model is an inline complex type: by the time the
element pass runs, the first pass has collected every named group, so a
group reference inside the inline type pulls in the group's child list.
(When the element instead uses a named complex type the expansion is
lost, because named complex types are parsed before groups in the same
pass — see the counterexample.) -/
theorem inline_group_indirection_expanded (st : ParserState)
    (elem ct g : XNode) (nspace G Inner name : String) (gs : List String)
    (hgroups : st.groups.lookup G = some gs) (hInner : Inner ∈ gs)
    (hname : elem.get "name" = some name) (hne : name ≠ "")
    (hnamed : usesNamedType st.types elem = false)
    (hct : findChild elem "complexType" = some ct)
    (hg : g ∈ findallDesc ct "group") (href : g.get "ref" = some G)
    (hGne : G ≠ "") :
    ∃ d, parse_element st elem nspace = some d ∧ Inner ∈ d.children := by
  rcases hpe : parse_element st elem nspace with _ | d
  · exfalso
    simp [parse_element, hname, hne] at hpe
  · refine ⟨d, rfl, ?_⟩
    simp only [parse_element, hname, hne, ite_false, hnamed,
      Bool.false_eq_true, if_false, hct, Option.some.injEq] at hpe
    rw [← hpe]
    show Inner ∈ (parse_complex_type st.types st.groups ct).getChildren
    simp only [parse_complex_type, TypeInfo.getChildren]
    exact List.mem_append_right _ (mem_groupChildren hg href hGne hgroups hInner)

/-- The named group `G` containing element `Inner`. -/
def groupDefC7 : XNode :=
  xnd "group" [("name", "G")] [
    xnd "sequence" [] [xnd "element" [("ref", "Inner")] []]]

/-- A reference to group `G`. -/
def gRefC7 : XNode := xnd "group" [("ref", "G")] []

/-- The inline complex type of `Outer`, containing the group reference. -/
def ctC7b : XNode := xnd "complexType" [] [xnd "sequence" [] [gRefC7]]

/-- `Outer` with an inline content model. -/
def elemC7b : XNode := xnd "element" [("name", "Outer")] [ctC7b]

/-- A schema where `Outer`'s inline `sequence` references group `G`. -/
def docC7b : XNode :=
  xnd "schema" [] [groupDefC7, elemC7b, xnd "element" [("name", "Inner")] []]

/-- A schema where `Outer` instead uses the named complex type
`OuterType`, whose `sequence` references group `G`. -/
def docC7 : XNode :=
  xnd "schema" [] [
    xnd "complexType" [("name", "OuterType")] [xnd "sequence" [] [gRefC7]],
    groupDefC7,
    xnd "element" [("name", "Outer"), ("type", "OuterType")] [],
    xnd "element" [("name", "Inner")] []]

/-- C7 counterexample: with a named complex type the group indirection is
not followed — group `G` is collected with child `Inner`, yet `Outer`'s
resolved children are empty, because `OuterType` was parsed before the
group table was filled. -/
theorem named_type_group_indirection_lost :
    ((parse_file ParserState.empty docC7 "wix").elements.lookup "Outer").map
      (fun d => d.children) = some [] ∧
    (parse_file_pass1 ParserState.empty docC7).groups.lookup "G" =
      some ["Inner"] :=
  ⟨by decide, by decide⟩

theorem inline_group_indirection_expanded_witness :
    Option.elim
      (parse_element (parse_file_pass1 ParserState.empty docC7b) elemC7b "wix")
      False (fun d => "Inner" ∈ d.children) := by
  obtain ⟨d, hd, hmem⟩ := inline_group_indirection_expanded
    (parse_file_pass1 ParserState.empty docC7b) elemC7b ctC7b gRefC7 "wix"
    "G" "Inner" "Outer" ["Inner"] (by decide) (by decide) (by decide)
    (by decide) (by decide) (by decide) (by decide) (by decide) (by decide)
  rw [hd]
  exact hmem

/-! ### Relationship-resolver closure -/

/-- The child `c`'s entry lists `p` among its parents. -/
def hasParent (es : List (String × ElementDescriptor)) (c p : String) : Prop :=
  ∃ e, es.lookup c = some e ∧ p ∈ e.parents

theorem addParent_keys (es : List (String × ElementDescriptor)) (c p : String) :
    (addParent es c p).map Prod.fst = es.map Prod.fst := by
  induction es with
  | nil => rfl
  | cons q rest ih =>
    obtain ⟨k, e⟩ := q
    by_cases hk : k = c
    · simp [addParent, hk]
    · simp [addParent, hk, ih]

theorem lookup_addParent (es : List (String × ElementDescriptor))
    (c p n : String) :
    (addParent es c p).lookup n =
      if n = c then (es.lookup n).map (fun e =>
        if p ∈ e.parents then e else { e with parents := e.parents ++ [p] })
      else es.lookup n := by
  induction es with
  | nil => simp [addParent, List.lookup]
  | cons q rest ih =>
    obtain ⟨k, e⟩ := q
    by_cases hk : k = c
    · by_cases hn : n = k
      · have hb : (n == k) = true := beq_iff_eq.mpr hn
        simp [addParent, hk, List.lookup, hb, hn.trans hk]
      · have hb : (n == k) = false := beq_eq_false_iff_ne.mpr hn
        have hnc : ¬ n = c := fun hc => hn (hc.trans hk.symm)
        have hb2 : (n == c) = false := beq_eq_false_iff_ne.mpr hnc
        simp [addParent, hk, List.lookup, hb, hb2, hnc]
    · by_cases hn : n = k
      · have hb : (n == k) = true := beq_iff_eq.mpr hn
        have hnc : ¬ n = c := fun hc => hk (hn.symm.trans hc)
        simp [addParent, hk, List.lookup, hb, hnc]
      · have hb : (n == k) = false := beq_eq_false_iff_ne.mpr hn
        simp [addParent, hk, List.lookup, hb, ih]

theorem resolveStep_keys (es : List (String × ElementDescriptor))
    (p c : String) : (resolveStep es p c).map Prod.fst = es.map Prod.fst := by
  unfold resolveStep
  split
  · exact addParent_keys es c p
  · rfl

theorem lookup_isSome_keys {α : Type} (l1 l2 : List (String × α))
    (h : l1.map Prod.fst = l2.map Prod.fst) (n : String) :
    (l1.lookup n).isSome = (l2.lookup n).isSome := by
  induction l1 generalizing l2 with
  | nil =>
    cases l2 with
    | nil => rfl
    | cons q r => simp at h
  | cons q rest ih =>
    cases l2 with
    | nil => simp at h
    | cons q2 rest2 =>
      obtain ⟨k, v⟩ := q
      obtain ⟨k2, v2⟩ := q2
      simp only [List.map_cons, List.cons.injEq] at h
      obtain ⟨hk, hrest⟩ := h
      subst hk
      by_cases hn : n = k
      · have hb : (n == k) = true := beq_iff_eq.mpr hn
        simp [List.lookup, hb]
      · have hb : (n == k) = false := beq_eq_false_iff_ne.mpr hn
        simp [List.lookup, hb, ih rest2 hrest]

theorem hasParent_addParent {es : List (String × ElementDescriptor)}
    {c p : String} (c' p' : String) (h : hasParent es c p) :
    hasParent (addParent es c' p') c p := by
  obtain ⟨e, he, hp⟩ := h
  unfold hasParent
  rw [lookup_addParent]
  by_cases hc : c = c'
  · rw [if_pos hc, he, Option.map_some']
    refine ⟨_, rfl, ?_⟩
    by_cases hpp : p' ∈ e.parents
    · simpa [hpp] using hp
    · simp only [hpp, ite_false]
      exact List.mem_append_left _ hp
  · rw [if_neg hc]
    exact ⟨e, he, hp⟩

theorem hasParent_resolveStep {es : List (String × ElementDescriptor)}
    {c p : String} (p' c' : String) (h : hasParent es c p) :
    hasParent (resolveStep es p' c') c p := by
  unfold resolveStep
  split
  · exact hasParent_addParent c' p' h
  · exact h

theorem hasParent_innerFold {c p : String} (P : String) (cs : List String) :
    ∀ acc, hasParent acc c p →
      hasParent (cs.foldl (fun a x => resolveStep a P x) acc) c p := by
  induction cs with
  | nil => intro acc h; exact h
  | cons x rest ih =>
    intro acc h
    rw [List.foldl_cons]
    exact ih (resolveStep acc P x) (hasParent_resolveStep P x h)

theorem innerFold_keys (P : String) (cs : List String) :
    ∀ acc, (cs.foldl (fun a x => resolveStep a P x) acc).map Prod.fst =
      acc.map Prod.fst := by
  induction cs with
  | nil => intro acc; rfl
  | cons x rest ih =>
    intro acc
    rw [List.foldl_cons, ih (resolveStep acc P x), resolveStep_keys]

theorem innerFold_reach (P : String) (cs : List String) (C : String) :
    ∀ acc, C ∈ cs → (acc.lookup C).isSome →
      hasParent (cs.foldl (fun a x => resolveStep a P x) acc) C P := by
  induction cs with
  | nil => intro acc h; cases h
  | cons x rest ih =>
    intro acc hC hs
    rcases List.mem_cons.mp hC with hx | hx
    · subst hx
      rw [List.foldl_cons]
      apply hasParent_innerFold P rest
      obtain ⟨e, he⟩ := Option.isSome_iff_exists.mp hs
      unfold resolveStep
      rw [if_pos (by rw [he]; rfl)]
      unfold hasParent
      rw [lookup_addParent, if_pos rfl, he, Option.map_some']
      refine ⟨_, rfl, ?_⟩
      by_cases hpp : P ∈ e.parents
      · simp [hpp]
      · simp only [hpp, ite_false]
        exact List.mem_append_right _ (List.mem_singleton_self P)
    · rw [List.foldl_cons]
      refine ih (resolveStep acc P x) hx ?_
      rw [lookup_isSome_keys _ acc (resolveStep_keys acc P x) C]
      exact hs

theorem hasParent_outerFold {c p : String}
    (l : List (String × List String)) :
    ∀ acc, hasParent acc c p → hasParent (l.foldl resolveElemStep acc) c p := by
  induction l with
  | nil => intro acc h; exact h
  | cons pc rest ih =>
    intro acc h
    rw [List.foldl_cons]
    exact ih (resolveElemStep acc pc) (hasParent_innerFold pc.1 pc.2 acc h)

theorem resolveElemStep_keys (acc : List (String × ElementDescriptor))
    (pc : String × List String) :
    (resolveElemStep acc pc).map Prod.fst = acc.map Prod.fst :=
  innerFold_keys pc.1 pc.2 acc

theorem outerFold_reach (P C : String) (cs : List String)
    (l : List (String × List String)) :
    ∀ acc, (P, cs) ∈ l → C ∈ cs → (acc.lookup C).isSome →
      hasParent (l.foldl resolveElemStep acc) C P := by
  induction l with
  | nil => intro acc h; cases h
  | cons pc rest ih =>
    intro acc hmem hC hs
    rcases List.mem_cons.mp hmem with hx | hx
    · subst hx
      rw [List.foldl_cons]
      exact hasParent_outerFold rest (resolveElemStep acc (P, cs))
        (innerFold_reach P cs C acc hC hs)
    · rw [List.foldl_cons]
      refine ih (resolveElemStep acc pc) hx hC ?_
      rw [lookup_isSome_keys _ acc (resolveElemStep_keys acc pc) C]
      exact hs

/-- C1: after `resolve_relationships`, for every descriptor `(P, dP)` of
the run and every child name `C` of `dP` that names a known descriptor,
`P` appears in the parents of `C`'s resolved entry: `parents` contains
the inverse of the `children` relation over the collection. -/
theorem resolve_relationships_closure (es : List (String × ElementDescriptor))
    (P : String) (dP : ElementDescriptor) (hP : (P, dP) ∈ es)
    (C : String) (hC : C ∈ dP.children) (hknown : (es.lookup C).isSome)
    (dC : ElementDescriptor)
    (hres : (resolve_relationships es).lookup C = some dC) :
    P ∈ dC.parents := by
  have hmem : (P, dP.children) ∈ es.map (fun p => (p.1, p.2.children)) := by
    have h := List.mem_map_of_mem (fun p => (p.1, p.2.children)) hP
    simpa using h
  have hreach := outerFold_reach P C dP.children
    (es.map (fun p => (p.1, p.2.children))) es hmem hC hknown
  obtain ⟨e, he, hp⟩ := hreach
  unfold resolve_relationships at hres
  rw [he] at hres
  exact (Option.some.inj hres) ▸ hp

/-- A two-element run: `Parent` declares `Child` in its children. -/
def dParentC1 : ElementDescriptor :=
  { name := "Parent", nspace := "wix", since := "v4", description := "p",
    documentation := "", parents := [], children := ["Child"],
    attributes := [] }

def dChildC1 : ElementDescriptor :=
  { name := "Child", nspace := "wix", since := "v4", description := "c",
    documentation := "", parents := [], children := [], attributes := [] }

def esC1 : List (String × ElementDescriptor) :=
  [("Parent", dParentC1), ("Child", dChildC1)]

/-- `Child`'s entry after resolution. -/
def dChildResC1 : ElementDescriptor :=
  { dChildC1 with parents := ["Parent"] }

theorem resolve_relationships_closure_witness : "Parent" ∈ dChildResC1.parents :=
  resolve_relationships_closure esC1 "Parent" dParentC1 (by decide)
    "Child" (by decide) (by decide) dChildResC1 (by decide)
